import Mathlib

/-!
Verification of the gollection library (a Go generic collection package)
against its natural-language specification.

The development shallowly embeds the relevant parts of the source:

* the free sequence algorithms of the `slice` package become pure functions
  on `List α` (element order and indices tracked exactly as the Go loops do);
* the errors of the package become the constructors of `GoError`
  (`ErrIsEmpty`, `ErrIndexOutOfRange`, the iterator's "has not next" error,
  and the map "this map has not key" error);
* `BaseCollection` methods that mutate or read the receiver's `items` field
  become explicit state passing (`List α → result × List α`);
* where a claim is about storage aliasing (defensive copies, shared maps),
  Go slice/map values are modelled as references into an explicit `Heap`,
  so that `make`+`copy` (a fresh cell holding the same contents) is
  distinguishable from storing the caller's reference;
* Go runtime panics (out-of-range indexing) are modelled by the
  `GoValue.panicked` constructor, distinct from any returned error value.
-/

/-- Error values of the library.  `errIsEmpty` and `errIndexOutOfRange` are
the two sentinels declared in the gollection package; `hasNotNext` is the
iterator's `errors.New("has not next")`; `mapHasNotKey` is the
`fmt.Errorf("this map has not key: %v", key)` error of
`BaseCollectionMap.Remove`. -/
inductive GoError : Type
  | errIsEmpty
  | errIndexOutOfRange
  | hasNotNext
  | mapHasNotKey
  deriving DecidableEq

/-- Result of a Go expression that can panic at runtime: either a value, or
a runtime panic (which aborts the caller, it is not an error return). -/
inductive GoValue (α : Type) : Type
  | ok (a : α)
  | panicked
  deriving DecidableEq

/-! ### The free sequence algorithms (`pkg/slice`)

Each function is translated from the revision of the `slice` package whose
signatures `collection.go` compiles against (index-taking callbacks,
`Chunk` callback of type `func(v []T, i int)`). -/

/-- Loop of `slice.Map`: `for i, v := range s { mapped = append(mapped, fn(v, i)) }`,
with `i` the running index. -/
def sliceMapGo (fn : α → Nat → α) : List α → Nat → List α
  | [], _ => []
  | v :: rest, i => fn v i :: sliceMapGo fn rest (i + 1)

/-- `slice.Map(s, fn)`. -/
def sliceMap (s : List α) (fn : α → Nat → α) : List α :=
  sliceMapGo fn s 0

/-- Loop of `slice.Filter`: keeps `v` when `fn(v, i)` is true. -/
def sliceFilterGo (fn : α → Nat → Bool) : List α → Nat → List α
  | [], _ => []
  | v :: rest, i =>
    if fn v i then v :: sliceFilterGo fn rest (i + 1)
    else sliceFilterGo fn rest (i + 1)

/-- `slice.Filter(s, fn)`. -/
def sliceFilter (s : List α) (fn : α → Nat → Bool) : List α :=
  sliceFilterGo fn s 0

/-- Loop of `slice.Except`: keeps `v` when `fn(v, i)` is false. -/
def sliceExceptGo (fn : α → Nat → Bool) : List α → Nat → List α
  | [], _ => []
  | v :: rest, i =>
    if fn v i then sliceExceptGo fn rest (i + 1)
    else v :: sliceExceptGo fn rest (i + 1)

/-- `slice.Except(s, fn)`. -/
def sliceExcept (s : List α) (fn : α → Nat → Bool) : List α :=
  sliceExceptGo fn s 0

/-- `slice.Copy(s)`: `make([]T, len(s)); copy(...)`.  At the level of list
values the copy has exactly the contents of `s`; the fresh-storage aspect
is modelled separately in the heap embedding below. -/
def sliceCopy (s : List α) : List α := s

/-- `slice.Add(s, v)` / `slice.Push(s, v)`: `append(s, v)`. -/
def sliceAdd (s : List α) (v : α) : List α := s ++ [v]

/-- `slice.Remove(s, index)`: `append(s[:index], s[index+1:]...)`
(the caller guarantees `index` is in range; out of range the Go code
panics, which no claim exercises). -/
def sliceRemove (s : List α) (index : Nat) : List α :=
  s.take index ++ s.drop (index + 1)

/-- `slice.Pop(s)`: returns `(s[:len(s)-1], s[len(s)-1])`; the popped value
is `none` exactly when the Go code would panic (empty slice), which callers
guard against. -/
def slicePop (s : List α) : List α × Option α :=
  (s.dropLast, s.getLast?)

/-- `slice.Dequeue(s)`: returns `(s[1:], s[0])`; `none` models the panic on
an empty slice, which callers guard against. -/
def sliceDequeue (s : List α) : List α × Option α :=
  (s.tail, s.head?)

/-- `slice.First(s)`: `s[0]`; `none` models the panic on an empty slice. -/
def sliceFirst (s : List α) : Option α := s.head?

/-- `slice.Last(s)`: `s[len(s)-1]`; `none` models the panic on an empty
slice. -/
def sliceLast (s : List α) : Option α := s.getLast?

/-- `slice.Merge(s1, s2)`: appends every element of `s2` after `s1`. -/
def sliceMerge (s1 s2 : List α) : List α := s1 ++ s2

/-- Loop of `slice.Reverse`: `for i := len(s) - 1; i >= 0; i--` appending
`s[i]`; the argument is the count of elements still to emit. -/
def sliceReverseGo (s : List α) : Nat → List α
  | 0 => []
  | i + 1 => (s.get? i).toList ++ sliceReverseGo s i

/-- `slice.Reverse(s)`. -/
def sliceReverse (s : List α) : List α :=
  sliceReverseGo s s.length

/-- `slice.Slice(s, start, end)`: the Go view `s[start:end]` (in-range by
the caller's obligation; out of range the Go code panics). -/
def sliceSlice (s : List α) (start stop : Nat) : List α :=
  (s.drop start).take (stop - start)

/-! ### `slice.Chunk`, revision of `src/unnamed/part_002`

```go
chunkedSize := int(math.Ceil(float64(len(s) / chunkSize)))
for i := 0; i < chunkedSize; i++ {
    if (i*chunkSize)+chunkSize <= (len(s) - 1) {
        chunkSlice = s[(i * chunkSize) : (i*chunkSize)+chunkSize]
    } else {
        chunkSlice = s[(i * chunkSize):]
    }
    callback(chunkSlice, i)
    chunkedSlice = append(chunkedSlice, chunkSlice)
}
```

`len(s) / chunkSize` is Go integer division, so `math.Ceil` is applied to
an already-truncated integer and `chunkedSize = len(s) / chunkSize`
(floor).  The embedding returns both the produced chunks and the trace of
callback invocations `(chunk, index)` in invocation order. -/

/-- One loop iteration of `Chunk`; the first argument counts the remaining
iterations (`chunkedSize - i`), the second is the current index `i`. -/
def sliceChunkGo (s : List α) (chunkSize : Nat) :
    Nat → Nat → List (List α) × List (List α × Nat)
  | 0, _ => ([], [])
  | n + 1, i =>
    let chunkSlice :=
      if i * chunkSize + chunkSize + 1 ≤ s.length then
        (s.drop (i * chunkSize)).take chunkSize
      else
        s.drop (i * chunkSize)
    let rest := sliceChunkGo s chunkSize n (i + 1)
    (chunkSlice :: rest.1, (chunkSlice, i) :: rest.2)

/-- `slice.Chunk(s, chunkSize, fn)` (part_002 revision): first component
the returned `[][]T`, second component the `(chunk, index)` arguments of
the callback invocations, in order. -/
def sliceChunk (s : List α) (chunkSize : Nat) :
    List (List α) × List (List α × Nat) :=
  sliceChunkGo s chunkSize (s.length / chunkSize) 0

/-! ### `BaseCollection` methods as state transformers

The receiver's `items` field is the state; a method returns its Go result
paired with the state after the call. -/

/-- `BaseCollection.Count`: `len(b.items)`. -/
def BaseCollection.Count (st : List α) : Nat := st.length

/-- `BaseCollection.IsEmpty`: `b.Count() == 0`. -/
def BaseCollection.IsEmpty (st : List α) : Bool :=
  BaseCollection.Count st == 0

/-- `BaseCollection.First`: empty guard returning `ErrIsEmpty`, otherwise
`slice.First(b.All())`. -/
def BaseCollection.First (st : List α) : Except GoError (Option α) × List α :=
  if BaseCollection.IsEmpty st then (.error .errIsEmpty, st)
  else (.ok (sliceFirst (sliceCopy st)), st)

/-- `BaseCollection.Last`: empty guard, otherwise `slice.Last(b.All())`. -/
def BaseCollection.Last (st : List α) : Except GoError (Option α) × List α :=
  if BaseCollection.IsEmpty st then (.error .errIsEmpty, st)
  else (.ok (sliceLast (sliceCopy st)), st)

/-- `BaseCollection.Pop`: empty guard, otherwise `slice.Pop(b.items)` and
the shortened slice is stored back into `b.items`. -/
def BaseCollection.Pop (st : List α) : Except GoError (Option α) × List α :=
  if BaseCollection.IsEmpty st then (.error .errIsEmpty, st)
  else
    let p := slicePop st
    (.ok p.2, p.1)

/-- `BaseCollection.Dequeue`: empty guard, otherwise `slice.Dequeue(b.items)`
and the shortened slice is stored back. -/
def BaseCollection.Dequeue (st : List α) : Except GoError (Option α) × List α :=
  if BaseCollection.IsEmpty st then (.error .errIsEmpty, st)
  else
    let d := sliceDequeue st
    (.ok d.2, d.1)

/-- `BaseCollection.Remove`: empty guard, otherwise
`b.items = slice.Remove(b.items, index)`. -/
def BaseCollection.Remove (st : List α) (index : Nat) :
    Except GoError Unit × List α :=
  if BaseCollection.IsEmpty st then (.error .errIsEmpty, st)
  else (.ok (), sliceRemove st index)

/-- `BaseCollection.Get(key)`: `return b.items[key]` — unchecked indexing,
a Go runtime panic when `key` is out of range (negative or `≥ len`). -/
def BaseCollection.Get (st : List α) (key : Int) : GoValue α :=
  if h : 0 ≤ key ∧ key.toNat < st.length then .ok (st.get ⟨key.toNat, h.2⟩)
  else .panicked

/-- `BaseCollection.Chunk(chunkSize, fn)`: `slice.Chunk(b.All(), chunkSize, fn)`;
first component the returned chunks, second the callback invocation trace. -/
def BaseCollection.Chunk (st : List α) (chunkSize : Nat) :
    List (List α) × List (List α × Nat) :=
  sliceChunk (sliceCopy st) chunkSize

/-! ### Heap embedding for storage/aliasing claims

A Go slice (or map) value is a reference — an index into a heap of cells.
`make` + `copy` allocates a fresh cell holding the same contents; storing a
caller's value without copying stores the caller's reference.  Writing
through a reference updates the cell every alias sees. -/

/-- A heap of cells of type `β`; references are indices into `cells`. -/
structure Heap (β : Type) : Type where
  cells : List β

/-- Read the cell a reference designates (`default` for a dangling
reference, which no modelled program creates). -/
def Heap.read [Inhabited β] (h : Heap β) (r : Nat) : β :=
  (h.cells.get? r).getD default

/-- Overwrite the cell a reference designates (mutation through any
alias). -/
def Heap.write (h : Heap β) (r : Nat) (v : β) : Heap β :=
  ⟨h.cells.set r v⟩

/-- Allocate a fresh cell holding `v`; returns the new heap and the fresh
reference. -/
def Heap.alloc (h : Heap β) (v : β) : Heap β × Nat :=
  (⟨h.cells ++ [v]⟩, h.cells.length)

/-- `NewCollection(items)`: `make([]T, len(items)); copy(copyItems, items)` —
a defensive copy: a fresh cell with the same contents as the caller's
slice.  Returns the heap and the collection's internal `items` reference. -/
def NewCollection (h : Heap (List α)) (src : Nat) : Heap (List α) × Nat :=
  h.alloc (h.read src)

/-- `BaseCollection.Items()`: `return b.items` — the internal reference
itself, no copy. -/
def BaseCollection.ItemsRef (c : Nat) : Nat := c

/-- `BaseCollection.All()`: `slice.Copy(b.items)` — a fresh cell with the
current contents. -/
def BaseCollection.All (h : Heap (List α)) (c : Nat) : Heap (List α) × Nat :=
  h.alloc (h.read c)

/-- `BaseCollection.Map(fn)`: `NewCollection(slice.Map(b.All(), fn))` —
copy, build the mapped slice, copy again into the new collection. -/
def BaseCollection.Map (h : Heap (List α)) (c : Nat) (fn : α → Nat → α) :
    Heap (List α) × Nat :=
  let a := BaseCollection.All h c
  let m := a.1.alloc (sliceMap (a.1.read a.2) fn)
  NewCollection m.1 m.2

/-- `BaseCollection.Filter(fn)`: `NewCollection(slice.Filter(b.All(), fn))`. -/
def BaseCollection.Filter (h : Heap (List α)) (c : Nat) (fn : α → Nat → Bool) :
    Heap (List α) × Nat :=
  let a := BaseCollection.All h c
  let m := a.1.alloc (sliceFilter (a.1.read a.2) fn)
  NewCollection m.1 m.2

/-- `BaseCollection.Except(fn)`: `NewCollection(slice.Except(b.All(), fn))`. -/
def BaseCollection.ExceptM (h : Heap (List α)) (c : Nat) (fn : α → Nat → Bool) :
    Heap (List α) × Nat :=
  let a := BaseCollection.All h c
  let m := a.1.alloc (sliceExcept (a.1.read a.2) fn)
  NewCollection m.1 m.2

/-- `BaseCollection.Copy()`: `NewCollection(b.All())`. -/
def BaseCollection.CopyM (h : Heap (List α)) (c : Nat) : Heap (List α) × Nat :=
  let a := BaseCollection.All h c
  NewCollection a.1 a.2

/-- `BaseCollection.Merge(merge)`: `NewCollection(slice.Merge(b.All(), merge))`;
the argument slice is taken by value (its aliasing is not at issue). -/
def BaseCollection.Merge (h : Heap (List α)) (c : Nat) (ms : List α) :
    Heap (List α) × Nat :=
  let a := BaseCollection.All h c
  let m := a.1.alloc (sliceMerge (a.1.read a.2) ms)
  NewCollection m.1 m.2

/-- `BaseCollection.Slice(start, end)`:
`NewCollection(slice.Slice(b.All(), start, end))` — the Go view
`s[start:end]` allocates nothing, `NewCollection` then copies it. -/
def BaseCollection.SliceM (h : Heap (List α)) (c : Nat) (start stop : Nat) :
    Heap (List α) × Nat :=
  let a := BaseCollection.All h c
  a.1.alloc (sliceSlice (a.1.read a.2) start stop)

/-- `BaseCollection.Reverse()`: `NewCollection(slice.Reverse(b.All()))`. -/
def BaseCollection.Reverse (h : Heap (List α)) (c : Nat) :
    Heap (List α) × Nat :=
  let a := BaseCollection.All h c
  let m := a.1.alloc (sliceReverse (a.1.read a.2))
  NewCollection m.1 m.2

/-- `BaseCollection.Sort(fun)`: `items := b.All(); sort.Slice(items, fun);
NewCollection(items)`.  `sort.Slice` (Go standard library) reorders the
copied cell in place; its comparator acts on indices, so its effect on the
contents is passed in abstractly as `sortImpl`. -/
def BaseCollection.Sort (h : Heap (List α)) (c : Nat)
    (sortImpl : List α → List α) : Heap (List α) × Nat :=
  let a := BaseCollection.All h c
  let h1 := a.1.write a.2 (sortImpl (a.1.read a.2))
  NewCollection h1 a.2

/-! ### The iterator (`pkg/iterator/iterator.go`) -/

/-- `StructIterator`: a cursor `index` over `values`. -/
structure StructIterator (α : Type) : Type where
  index : Nat
  values : List α
  deriving DecidableEq

/-- `NewIterator(values)`: cursor starts at 0. -/
def NewIterator (values : List α) : StructIterator α :=
  { index := 0, values := values }

/-- `StructIterator.HasNext()`: `i.index < len(i.values)`. -/
def StructIterator.HasNext (it : StructIterator α) : Bool :=
  decide (it.index < it.values.length)

/-- `StructIterator.Next()`: if `HasNext`, return `values[index]` and
increment the cursor; otherwise return the "has not next" error, cursor
untouched. -/
def StructIterator.Next (it : StructIterator α) :
    Except GoError (Option α) × StructIterator α :=
  if it.HasNext then
    (.ok (it.values.get? it.index), { it with index := it.index + 1 })
  else
    (.error .hasNotNext, it)

/-! ### The mapping collection (`BaseCollectionMap`)

A Go map value is modelled extensionally as an association list; lookup
finds the (unique) binding of a key.  Aliased storage is modelled with the
same `Heap` as for slices, over cells of association lists. -/

/-- Go map read `m[k]` (presence-aware: `none` when the key is absent). -/
def mapsLookup [DecidableEq K] : List (K × V) → K → Option V
  | [], _ => none
  | (k', v') :: rest, k => if k' = k then some v' else mapsLookup rest k

/-- Go map write `m[k] = v`: replace the binding of `k` if present,
otherwise add it. -/
def mapsInsert [DecidableEq K] : List (K × V) → K → V → List (K × V)
  | [], k, v => [(k, v)]
  | (k', v') :: rest, k, v =>
    if k' = k then (k, v) :: rest else (k', v') :: mapsInsert rest k v

/-- Go `delete(m, k)`: remove the binding of `k` (no-op when absent). -/
def mapsDelete [DecidableEq K] : List (K × V) → K → List (K × V)
  | [], _ => []
  | (k', v') :: rest, k =>
    if k' = k then mapsDelete rest k else (k', v') :: mapsDelete rest k

/-- `BaseCollectionMap.Remove(key)`: `if _, ok := b.items[key]; ok {
delete(b.items, key); return nil }; return fmt.Errorf(...)`.  The map is
the state. -/
def BaseCollectionMap.Remove [DecidableEq K] (m : List (K × V)) (key : K) :
    Except GoError Unit × List (K × V) :=
  if (mapsLookup m key).isSome then (.ok (), mapsDelete m key)
  else (.error .mapHasNotKey, m)

/-- `NewCollectionMap(items)`: stores the caller's map reference directly —
no copy is taken (contrast `NewCollection`). -/
def NewCollectionMap (h : Heap (List (K × V))) (src : Nat) :
    Heap (List (K × V)) × Nat :=
  (h, src)

/-- `BaseCollectionMap.Items()`: `return b.items` — the internal reference. -/
def BaseCollectionMap.ItemsRef (c : Nat) : Nat := c

/-- `BaseCollectionMap.Put(key, item)`: `b.items[key] = item` — writes the
shared cell in place. -/
def BaseCollectionMap.Put [DecidableEq K] (h : Heap (List (K × V))) (c : Nat)
    (key : K) (item : V) : Heap (List (K × V)) :=
  h.write c (mapsInsert (h.read c) key item)

/-- `BaseCollectionMap.Get(key)`: `return b.items[key]` (presence-aware in
the model; Go returns the zero value for an absent key). -/
def BaseCollectionMap.GetM [DecidableEq K] (h : Heap (List (K × V))) (c : Nat)
    (key : K) : Option V :=
  mapsLookup (h.read c) key

/-! ## Helper lemmas about the heap -/

theorem listGet_append (l : List β) (v : β) (i : Nat) (h : i < l.length) :
    (l ++ [v]).get? i = l.get? i := by
  induction l generalizing i with
  | nil => simp at h
  | cons x xs ih =>
    cases i with
    | zero => rfl
    | succ j => simpa using ih j (by simpa using h)

theorem listGet_append_length (l : List β) (v : β) :
    (l ++ [v]).get? l.length = some v := by
  induction l with
  | nil => rfl
  | cons x xs ih => simp [ih]

theorem listGet_set_self (l : List β) (i : Nat) (v : β) (h : i < l.length) :
    (l.set i v).get? i = some v := by
  induction l generalizing i with
  | nil => simp at h
  | cons x xs ih =>
    cases i with
    | zero => rfl
    | succ j => simpa using ih j (by simpa using h)

theorem listGet_set_ne (l : List β) (i j : Nat) (v : β) (h : i ≠ j) :
    (l.set i v).get? j = l.get? j := by
  induction l generalizing i j with
  | nil => rfl
  | cons x xs ih =>
    cases i with
    | zero =>
      cases j with
      | zero => exact absurd rfl h
      | succ j' => rfl
    | succ i' =>
      cases j with
      | zero => rfl
      | succ j' => simpa using ih i' j' (by omega)

theorem Heap.read_alloc_lt [Inhabited β] (h : Heap β) (v : β) (r : Nat)
    (hr : r < h.cells.length) : (h.alloc v).1.read r = h.read r := by
  simp only [Heap.alloc, Heap.read, listGet_append _ _ _ hr]

theorem Heap.read_alloc_new [Inhabited β] (h : Heap β) (v : β) :
    (h.alloc v).1.read (h.alloc v).2 = v := by
  simp only [Heap.alloc, Heap.read, listGet_append_length]
  rfl

theorem Heap.alloc_ref [Inhabited β] (h : Heap β) (v : β) :
    (h.alloc v).2 = h.cells.length := rfl

theorem Heap.alloc_length [Inhabited β] (h : Heap β) (v : β) :
    (h.alloc v).1.cells.length = h.cells.length + 1 := by
  simp [Heap.alloc]

theorem Heap.read_write_self [Inhabited β] (h : Heap β) (r : Nat) (v : β)
    (hr : r < h.cells.length) : (h.write r v).read r = v := by
  simp only [Heap.write, Heap.read, listGet_set_self _ _ _ hr]
  rfl

theorem Heap.read_write_ne [Inhabited β] (h : Heap β) (r r' : Nat) (v : β)
    (hne : r ≠ r') : (h.write r v).read r' = h.read r' := by
  simp only [Heap.write, Heap.read, listGet_set_ne _ _ _ _ hne]

/-- Common shape of the transforming methods `Map`, `Filter`, `Except`,
`Merge`, `Reverse`: copy the items (`b.All()`), compute a new slice from
the copy, wrap it in a new collection (`NewCollection`).  Each method body
is definitionally this chain at its own computation `g`. -/
def transformChain (h : Heap (List α)) (c : Nat) (g : List α → List α) :
    Heap (List α) × Nat :=
  let a := BaseCollection.All h c
  let m := a.1.alloc (g (a.1.read a.2))
  NewCollection m.1 m.2

theorem transformChain_read_receiver (h : Heap (List α)) (c : Nat)
    (g : List α → List α) (hc : c < h.cells.length) :
    (transformChain h c g).1.read c = h.read c := by
  simp only [transformChain, BaseCollection.All, NewCollection,
    Heap.read_alloc_new]
  have l1 : c < (h.alloc (h.read c)).1.cells.length := by
    simp only [Heap.alloc_length]; omega
  have l2 : c < ((h.alloc (h.read c)).1.alloc (g (h.read c))).1.cells.length := by
    simp only [Heap.alloc_length]; omega
  rw [Heap.read_alloc_lt _ _ _ l2, Heap.read_alloc_lt _ _ _ l1,
    Heap.read_alloc_lt _ _ _ hc]

theorem transformChain_fresh (h : Heap (List α)) (c : Nat)
    (g : List α → List α) (hc : c < h.cells.length) :
    (transformChain h c g).2 ≠ c := by
  simp only [transformChain, BaseCollection.All, NewCollection,
    Heap.read_alloc_new, Heap.alloc_ref, Heap.alloc_length]
  omega

theorem transformChain_result (h : Heap (List α)) (c : Nat)
    (g : List α → List α) :
    (transformChain h c g).1.read (transformChain h c g).2 = g (h.read c) := by
  simp only [transformChain, BaseCollection.All, NewCollection,
    Heap.read_alloc_new]

theorem transformChain_spec (h : Heap (List α)) (c : Nat)
    (g : List α → List α) (hc : c < h.cells.length) :
    (transformChain h c g).1.read c = h.read c ∧
    (transformChain h c g).2 ≠ c ∧
    (transformChain h c g).1.read (transformChain h c g).2 = g (h.read c) :=
  ⟨transformChain_read_receiver h c g hc, transformChain_fresh h c g hc,
    transformChain_result h c g⟩

theorem copy_method_spec (h : Heap (List α)) (c : Nat)
    (hc : c < h.cells.length) :
    (BaseCollection.CopyM h c).1.read c = h.read c ∧
    (BaseCollection.CopyM h c).2 ≠ c ∧
    (BaseCollection.CopyM h c).1.read (BaseCollection.CopyM h c).2
      = h.read c := by
  have l1 : c < (h.alloc (h.read c)).1.cells.length := by
    simp only [Heap.alloc_length]; omega
  refine ⟨?_, ?_, ?_⟩
  · show ((h.alloc (h.read c)).1.alloc
      ((h.alloc (h.read c)).1.read (h.alloc (h.read c)).2)).1.read c = h.read c
    rw [Heap.read_alloc_lt _ _ _ l1, Heap.read_alloc_lt _ _ _ hc]
  · show ((h.alloc (h.read c)).1.alloc
      ((h.alloc (h.read c)).1.read (h.alloc (h.read c)).2)).2 ≠ c
    simp only [Heap.alloc_ref, Heap.alloc_length]
    omega
  · show ((h.alloc (h.read c)).1.alloc
        ((h.alloc (h.read c)).1.read (h.alloc (h.read c)).2)).1.read
        ((h.alloc (h.read c)).1.alloc
          ((h.alloc (h.read c)).1.read (h.alloc (h.read c)).2)).2
      = h.read c
    simp only [Heap.read_alloc_new]

theorem slice_method_spec (h : Heap (List α)) (c : Nat) (start stop : Nat)
    (hc : c < h.cells.length) :
    (BaseCollection.SliceM h c start stop).1.read c = h.read c ∧
    (BaseCollection.SliceM h c start stop).2 ≠ c ∧
    (BaseCollection.SliceM h c start stop).1.read
        (BaseCollection.SliceM h c start stop).2
      = sliceSlice (h.read c) start stop := by
  have l1 : c < (h.alloc (h.read c)).1.cells.length := by
    simp only [Heap.alloc_length]; omega
  refine ⟨?_, ?_, ?_⟩
  · show ((h.alloc (h.read c)).1.alloc
      (sliceSlice ((h.alloc (h.read c)).1.read (h.alloc (h.read c)).2)
        start stop)).1.read c = h.read c
    rw [Heap.read_alloc_lt _ _ _ l1, Heap.read_alloc_lt _ _ _ hc]
  · show ((h.alloc (h.read c)).1.alloc
      (sliceSlice ((h.alloc (h.read c)).1.read (h.alloc (h.read c)).2)
        start stop)).2 ≠ c
    simp only [Heap.alloc_ref, Heap.alloc_length]
    omega
  · simp only [BaseCollection.SliceM, BaseCollection.All,
      Heap.read_alloc_new]

theorem sort_method_spec (h : Heap (List α)) (c : Nat)
    (sortImpl : List α → List α) (hc : c < h.cells.length) :
    (BaseCollection.Sort h c sortImpl).1.read c = h.read c ∧
    (BaseCollection.Sort h c sortImpl).2 ≠ c ∧
    (BaseCollection.Sort h c sortImpl).1.read
        (BaseCollection.Sort h c sortImpl).2
      = sortImpl (h.read c) := by
  have hlen : ((h.alloc (h.read c)).1.write (h.alloc (h.read c)).2
      (sortImpl ((h.alloc (h.read c)).1.read
        (h.alloc (h.read c)).2))).cells.length = h.cells.length + 1 := by
    simp [Heap.write, Heap.alloc]
  have hwr : ((h.alloc (h.read c)).1.write (h.alloc (h.read c)).2
      (sortImpl ((h.alloc (h.read c)).1.read (h.alloc (h.read c)).2))).read
        (h.alloc (h.read c)).2
      = sortImpl (h.read c) := by
    rw [Heap.read_write_self _ _ _ (by simp [Heap.alloc_ref, Heap.alloc_length]),
      Heap.read_alloc_new]
  refine ⟨?_, ?_, ?_⟩
  · show (((h.alloc (h.read c)).1.write (h.alloc (h.read c)).2
        (sortImpl ((h.alloc (h.read c)).1.read (h.alloc (h.read c)).2))).alloc
        (((h.alloc (h.read c)).1.write (h.alloc (h.read c)).2
          (sortImpl ((h.alloc (h.read c)).1.read
            (h.alloc (h.read c)).2))).read (h.alloc (h.read c)).2)).1.read c
      = h.read c
    rw [Heap.read_alloc_lt _ _ _ (by rw [hlen]; omega),
      Heap.read_write_ne _ _ _ _ (by simp only [Heap.alloc_ref]; omega),
      Heap.read_alloc_lt _ _ _ hc]
  · show (((h.alloc (h.read c)).1.write (h.alloc (h.read c)).2
        (sortImpl ((h.alloc (h.read c)).1.read (h.alloc (h.read c)).2))).alloc
        (((h.alloc (h.read c)).1.write (h.alloc (h.read c)).2
          (sortImpl ((h.alloc (h.read c)).1.read
            (h.alloc (h.read c)).2))).read (h.alloc (h.read c)).2)).2 ≠ c
    simp only [Heap.alloc, Heap.write, List.length_set, List.length_append]
    simp only [List.length_singleton]
    omega
  · show (((h.alloc (h.read c)).1.write (h.alloc (h.read c)).2
        (sortImpl ((h.alloc (h.read c)).1.read (h.alloc (h.read c)).2))).alloc
        (((h.alloc (h.read c)).1.write (h.alloc (h.read c)).2
          (sortImpl ((h.alloc (h.read c)).1.read
            (h.alloc (h.read c)).2))).read (h.alloc (h.read c)).2)).1.read
        (((h.alloc (h.read c)).1.write (h.alloc (h.read c)).2
          (sortImpl ((h.alloc (h.read c)).1.read (h.alloc (h.read c)).2))).alloc
        (((h.alloc (h.read c)).1.write (h.alloc (h.read c)).2
          (sortImpl ((h.alloc (h.read c)).1.read
            (h.alloc (h.read c)).2))).read (h.alloc (h.read c)).2)).2
      = sortImpl (h.read c)
    rw [Heap.read_alloc_new, hwr]

/-! ## Claim theorems -/

/-- C1: on a Collection with `Count() == 0`, each of `First`, `Last`,
`Pop`, `Dequeue`, `Remove` returns the distinguished `ErrIsEmpty` error and
leaves the internal sequence unchanged. -/
theorem empty_guard_all_ops (st : List α) (index : Nat)
    (h : BaseCollection.Count st = 0) :
    BaseCollection.First st = (.error .errIsEmpty, st) ∧
    BaseCollection.Last st = (.error .errIsEmpty, st) ∧
    BaseCollection.Pop st = (.error .errIsEmpty, st) ∧
    BaseCollection.Dequeue st = (.error .errIsEmpty, st) ∧
    BaseCollection.Remove st index = (.error .errIsEmpty, st) := by
  have hempty : BaseCollection.IsEmpty st = true := by
    simp [BaseCollection.IsEmpty, h]
  refine ⟨?_, ?_, ?_, ?_, ?_⟩ <;>
    simp [BaseCollection.First, BaseCollection.Last, BaseCollection.Pop,
      BaseCollection.Dequeue, BaseCollection.Remove, hempty]

/-- Witness for C1 at the concrete empty collection of integers. -/
theorem empty_guard_all_ops_witness :
    BaseCollection.Count ([] : List Int) = 0 ∧
    BaseCollection.Pop ([] : List Int) = (.error .errIsEmpty, []) ∧
    BaseCollection.Dequeue ([] : List Int) = (.error .errIsEmpty, []) :=
  ⟨rfl, (empty_guard_all_ops ([] : List Int) 0 rfl).2.2.1,
    (empty_guard_all_ops ([] : List Int) 0 rfl).2.2.2.1⟩

/-- C2: each of `Map`, `Filter`, `Except`, `Copy`, `Merge`, `Slice`,
`Reverse`, `Sort` returns a new Collection (a freshly allocated cell,
distinct from the receiver's) holding the freshly computed sequence, and
the receiver's own items are unchanged after the call. -/
theorem transform_ops_receiver_unchanged (h : Heap (List α)) (c : Nat)
    (fn : α → Nat → α) (p : α → Nat → Bool) (ms : List α) (start stop : Nat)
    (sortImpl : List α → List α) (hc : c < h.cells.length) :
    ((BaseCollection.Map h c fn).1.read c = h.read c ∧
      (BaseCollection.Map h c fn).2 ≠ c ∧
      (BaseCollection.Map h c fn).1.read (BaseCollection.Map h c fn).2
        = sliceMap (h.read c) fn) ∧
    ((BaseCollection.Filter h c p).1.read c = h.read c ∧
      (BaseCollection.Filter h c p).2 ≠ c ∧
      (BaseCollection.Filter h c p).1.read (BaseCollection.Filter h c p).2
        = sliceFilter (h.read c) p) ∧
    ((BaseCollection.ExceptM h c p).1.read c = h.read c ∧
      (BaseCollection.ExceptM h c p).2 ≠ c ∧
      (BaseCollection.ExceptM h c p).1.read (BaseCollection.ExceptM h c p).2
        = sliceExcept (h.read c) p) ∧
    ((BaseCollection.CopyM h c).1.read c = h.read c ∧
      (BaseCollection.CopyM h c).2 ≠ c ∧
      (BaseCollection.CopyM h c).1.read (BaseCollection.CopyM h c).2
        = h.read c) ∧
    ((BaseCollection.Merge h c ms).1.read c = h.read c ∧
      (BaseCollection.Merge h c ms).2 ≠ c ∧
      (BaseCollection.Merge h c ms).1.read (BaseCollection.Merge h c ms).2
        = sliceMerge (h.read c) ms) ∧
    ((BaseCollection.SliceM h c start stop).1.read c = h.read c ∧
      (BaseCollection.SliceM h c start stop).2 ≠ c ∧
      (BaseCollection.SliceM h c start stop).1.read
          (BaseCollection.SliceM h c start stop).2
        = sliceSlice (h.read c) start stop) ∧
    ((BaseCollection.Reverse h c).1.read c = h.read c ∧
      (BaseCollection.Reverse h c).2 ≠ c ∧
      (BaseCollection.Reverse h c).1.read (BaseCollection.Reverse h c).2
        = sliceReverse (h.read c)) ∧
    ((BaseCollection.Sort h c sortImpl).1.read c = h.read c ∧
      (BaseCollection.Sort h c sortImpl).2 ≠ c ∧
      (BaseCollection.Sort h c sortImpl).1.read
          (BaseCollection.Sort h c sortImpl).2
        = sortImpl (h.read c)) :=
  ⟨transformChain_spec h c (fun l => sliceMap l fn) hc,
    transformChain_spec h c (fun l => sliceFilter l p) hc,
    transformChain_spec h c (fun l => sliceExcept l p) hc,
    copy_method_spec h c hc,
    transformChain_spec h c (fun l => sliceMerge l ms) hc,
    slice_method_spec h c start stop hc,
    transformChain_spec h c (fun l => sliceReverse l) hc,
    sort_method_spec h c sortImpl hc⟩

/-- Witness for C2: the spec's scenario.  A Collection holding `[1,2,3]`;
`Filter (v == 1)` builds a new collection whose items are `[1]`, and the
original collection still reads `[1,2,3]`. -/
theorem transform_ops_receiver_unchanged_witness :
    (BaseCollection.Filter (Heap.mk [[1, 2, 3]] : Heap (List Int)) 0
        (fun v _ => v == 1)).1.read 0 = [1, 2, 3] ∧
    (BaseCollection.Filter (Heap.mk [[1, 2, 3]] : Heap (List Int)) 0
        (fun v _ => v == 1)).1.read
      (BaseCollection.Filter (Heap.mk [[1, 2, 3]] : Heap (List Int)) 0
        (fun v _ => v == 1)).2 = [1] := by
  have hspec := transform_ops_receiver_unchanged
    (Heap.mk [[1, 2, 3]] : Heap (List Int)) 0 (fun v _ => v)
    (fun v _ => v == 1) [] 0 0 (fun l => l) (by decide)
  refine ⟨hspec.2.1.1.trans (by decide), hspec.2.1.2.2.trans (by decide)⟩

/-- C3: the partition law `concat(Chunk(s, chunkSize)) == s` fails on the
code.  `slice.Chunk` computes `chunkedSize` as
`int(math.Ceil(float64(len(s) / chunkSize)))` — integer division happens
before `Ceil`, so the chunk count is the floor and the final partial chunk
is dropped: `Chunk([1,2,3], 2)` returns `[[1,2]]`, whose concatenation is
`[1,2]`, not `[1,2,3]`. -/
theorem chunk_concat_law_fails :
    (sliceChunk ([1, 2, 3] : List Int) 2).1 = [[1, 2]] ∧
    (sliceChunk ([1, 2, 3] : List Int) 2).1.flatten ≠ [1, 2, 3] := by
  decide

/-- C4 counterexample: `BaseCollection.Get` performs unchecked indexing
(`return b.items[key]`), so an out-of-range index is a Go runtime panic,
not a returned error value — refuting the claim that the failure is
reported to the caller as an error kind without panicking.  (The sentinel
`ErrIndexOutOfRange` exists but is never returned by any function.) -/
theorem get_out_of_range_panics :
    BaseCollection.Get ([1, 2, 3] : List Int) 5 = GoValue.panicked := by
  decide

/-- C4 (amended): `Get` with an in-range index returns the element; with an
out-of-range index (negative or `≥ Count()`) it panics at runtime rather
than returning an error; the declared sentinels `ErrIndexOutOfRange` and
`ErrIsEmpty` are distinct values, but `Get` returns neither. -/
theorem get_unchecked_spec (st : List α) (key : Int) :
    (∀ hk : 0 ≤ key ∧ key.toNat < st.length,
      BaseCollection.Get st key = .ok (st.get ⟨key.toNat, hk.2⟩)) ∧
    (¬(0 ≤ key ∧ key.toNat < st.length) →
      BaseCollection.Get st key = .panicked) ∧
    GoError.errIndexOutOfRange ≠ GoError.errIsEmpty := by
  refine ⟨?_, ?_, by decide⟩
  · intro hk
    unfold BaseCollection.Get
    rw [dif_pos hk]
  · intro hk
    unfold BaseCollection.Get
    rw [dif_neg hk]

/-- Witness for the amended C4: in-range `Get 1` on `[1,2,3]` yields `2`;
out-of-range `Get 5` panics. -/
theorem get_unchecked_spec_witness :
    BaseCollection.Get ([1, 2, 3] : List Int) 1 = .ok 2 ∧
    BaseCollection.Get ([1, 2, 3] : List Int) 5 = .panicked :=
  ⟨((get_unchecked_spec ([1, 2, 3] : List Int) 1).1
      ⟨by decide, by decide⟩).trans (by decide),
    (get_unchecked_spec ([1, 2, 3] : List Int) 5).2.1 (by decide)⟩

/-- C5: `NewCollection` stores a defensive copy — the collection's cell is
fresh (distinct from the caller's), holds the same contents, and
overwriting the caller's original cell afterwards leaves the collection's
contents unchanged; and `All()` returns an independent copy — a fresh cell
with the current contents, and overwriting it leaves the collection's
contents unchanged. -/
theorem defensive_copy_and_all (h : Heap (List α)) (src : Nat)
    (v w : List α) (hsrc : src < h.cells.length) :
    (NewCollection h src).1.read (NewCollection h src).2 = h.read src ∧
    (NewCollection h src).2 ≠ src ∧
    ((NewCollection h src).1.write src w).read (NewCollection h src).2
      = h.read src ∧
    (BaseCollection.All (NewCollection h src).1 (NewCollection h src).2).1.read
        (BaseCollection.All (NewCollection h src).1
          (NewCollection h src).2).2
      = h.read src ∧
    (BaseCollection.All (NewCollection h src).1 (NewCollection h src).2).2
      ≠ (NewCollection h src).2 ∧
    ((BaseCollection.All (NewCollection h src).1
          (NewCollection h src).2).1.write
        (BaseCollection.All (NewCollection h src).1
          (NewCollection h src).2).2 v).read (NewCollection h src).2
      = h.read src := by
  refine ⟨Heap.read_alloc_new h _, ?_, ?_, ?_, ?_, ?_⟩
  · simp only [NewCollection, Heap.alloc_ref]
    omega
  · show ((h.alloc (h.read src)).1.write src w).read (h.alloc (h.read src)).2
      = h.read src
    rw [Heap.read_write_ne _ _ _ _
        (by simp only [Heap.alloc_ref]; omega),
      Heap.read_alloc_new]
  · show ((h.alloc (h.read src)).1.alloc
        ((h.alloc (h.read src)).1.read (h.alloc (h.read src)).2)).1.read
        ((h.alloc (h.read src)).1.alloc
          ((h.alloc (h.read src)).1.read (h.alloc (h.read src)).2)).2
      = h.read src
    rw [Heap.read_alloc_new, Heap.read_alloc_new]
  · show ((h.alloc (h.read src)).1.alloc
        ((h.alloc (h.read src)).1.read (h.alloc (h.read src)).2)).2
      ≠ (h.alloc (h.read src)).2
    simp only [Heap.alloc_ref, Heap.alloc_length]
    omega
  · show (((h.alloc (h.read src)).1.alloc
          ((h.alloc (h.read src)).1.read (h.alloc (h.read src)).2)).1.write
        ((h.alloc (h.read src)).1.alloc
          ((h.alloc (h.read src)).1.read (h.alloc (h.read src)).2)).2
        v).read (h.alloc (h.read src)).2
      = h.read src
    rw [Heap.read_write_ne _ _ _ _
        (by simp only [Heap.alloc_ref, Heap.alloc_length]; omega),
      Heap.read_alloc_lt _ _ _
        (by simp only [Heap.alloc_ref, Heap.alloc_length]; omega),
      Heap.read_alloc_new]

/-- Witness for C5 at a one-cell heap holding the caller's `[1,2,3]`:
after construction the collection reads `[1,2,3]`, and it still does after
the caller's slice is overwritten with `[9,9,9]`. -/
theorem defensive_copy_and_all_witness :
    (NewCollection (Heap.mk [[1, 2, 3]] : Heap (List Int)) 0).1.read
        (NewCollection (Heap.mk [[1, 2, 3]] : Heap (List Int)) 0).2
      = [1, 2, 3] ∧
    ((NewCollection (Heap.mk [[1, 2, 3]] : Heap (List Int)) 0).1.write 0
        [9, 9, 9]).read
        (NewCollection (Heap.mk [[1, 2, 3]] : Heap (List Int)) 0).2
      = [1, 2, 3] := by
  have hspec := defensive_copy_and_all
    (Heap.mk [[1, 2, 3]] : Heap (List Int)) 0 [7] [9, 9, 9] (by decide)
  exact ⟨hspec.1.trans (by decide), hspec.2.2.1.trans (by decide)⟩

theorem sliceExceptGo_eq_filterGo (fn : α → Nat → Bool) (s : List α)
    (i : Nat) :
    sliceExceptGo fn s i = sliceFilterGo (fun v j => ! fn v j) s i := by
  induction s generalizing i with
  | nil => rfl
  | cons v rest ih =>
    simp only [sliceExceptGo, sliceFilterGo]
    by_cases hv : fn v i <;> simp [hv, ih]

/-- C6: the complement law.  `slice.Except(s, fn)` equals
`slice.Filter(s, fun v i => not (fn v i))` for every sequence and
predicate, and the Collection-level `Except` produces a collection with
exactly the items of `Filter` at the negated predicate. -/
theorem except_complement_law (s : List α) (fn : α → Nat → Bool)
    (h : Heap (List α)) (c : Nat) :
    sliceExcept s fn = sliceFilter s (fun v i => ! fn v i) ∧
    (BaseCollection.ExceptM h c fn).1.read (BaseCollection.ExceptM h c fn).2
      = (BaseCollection.Filter h c (fun v i => ! fn v i)).1.read
          (BaseCollection.Filter h c (fun v i => ! fn v i)).2 := by
  constructor
  · exact sliceExceptGo_eq_filterGo fn s 0
  · have he : (BaseCollection.ExceptM h c fn).1.read
        (BaseCollection.ExceptM h c fn).2 = sliceExcept (h.read c) fn :=
      transformChain_result h c (fun l => sliceExcept l fn)
    have hf : (BaseCollection.Filter h c (fun v i => ! fn v i)).1.read
        (BaseCollection.Filter h c (fun v i => ! fn v i)).2
        = sliceFilter (h.read c) (fun v i => ! fn v i) :=
      transformChain_result h c
        (fun l => sliceFilter l (fun v i => ! fn v i))
    rw [he, hf]
    exact sliceExceptGo_eq_filterGo fn (h.read c) 0

/-- C7: the spec's Chunk scenario fails on the code.  On a Collection
built from `[1,2,3]`, `Chunk(2, cb)` returns `[[1,2]]` and invokes the
callback exactly once, with `([1,2], 0)` — the trailing chunk `[3]` is
never produced and the second invocation `([3], 1)` never happens (same
floor-instead-of-ceiling chunk count as in the partition law). -/
theorem collection_chunk_scenario :
    BaseCollection.Chunk ([1, 2, 3] : List Int) 2
      = ([[1, 2]], [([1, 2], 0)]) := by
  decide

/-- C8: for an iterator over a sequence of length `n`: `HasNext()` is true
iff the cursor is `< n` (and, being a pure function of the state in this
embedding, has no side effect); in the Ready state `Next()` returns the
element at the pre-advance cursor (which exists) and advances the cursor by
exactly one, leaving the values untouched; in the Exhausted state
(`cursor == n`) `Next()` returns the "has not next" error and leaves the
iterator unchanged; and the cursor never decreases. -/
theorem iterator_cursor_spec (it : StructIterator α) :
    (it.HasNext = true ↔ it.index < it.values.length) ∧
    (it.index < it.values.length →
      it.Next.1 = .ok (it.values.get? it.index) ∧
      (it.values.get? it.index).isSome = true ∧
      it.Next.2.index = it.index + 1 ∧
      it.Next.2.values = it.values) ∧
    (it.index = it.values.length →
      it.Next.1 = .error .hasNotNext ∧ it.Next.2 = it) ∧
    it.index ≤ it.Next.2.index := by
  have hhn : it.HasNext = true ↔ it.index < it.values.length := by
    simp [StructIterator.HasNext]
  refine ⟨hhn, ?_, ?_, ?_⟩
  · intro hlt
    have hb : it.HasNext = true := hhn.mpr hlt
    refine ⟨?_, ?_, ?_, ?_⟩
    · simp [StructIterator.Next, hb]
    · rw [List.get?_eq_get hlt]
      rfl
    · simp [StructIterator.Next, hb]
    · simp [StructIterator.Next, hb]
  · intro hend
    have hb : it.HasNext = false := by
      simp [StructIterator.HasNext, hend]
    simp [StructIterator.Next, hb]
  · by_cases hb : it.HasNext = true
    · simp [StructIterator.Next, hb]
    · simp at hb
      simp [StructIterator.Next, hb]

/-- Witness for C8 at the concrete iterator `NewIterator [10, 20]`: two
successful `Next` calls yield the elements in order, the third errors with
the cursor left at 2. -/
theorem iterator_cursor_spec_witness :
    (NewIterator ([10, 20] : List Int)).HasNext = true ∧
    (NewIterator ([10, 20] : List Int)).Next.1 = .ok (some 10) ∧
    (NewIterator ([10, 20] : List Int)).Next.2.index = 1 ∧
    (StructIterator.mk 2 ([10, 20] : List Int)).Next.1
      = .error .hasNotNext ∧
    (StructIterator.mk 2 ([10, 20] : List Int)).Next.2
      = StructIterator.mk 2 ([10, 20] : List Int) := by
  have h0 := iterator_cursor_spec (NewIterator ([10, 20] : List Int))
  have h2 := iterator_cursor_spec (StructIterator.mk 2 ([10, 20] : List Int))
  have hready := h0.2.1 (by decide)
  have hdone := h2.2.2.1 (by decide)
  exact ⟨h0.1.mpr (by decide), hready.1.trans (by rfl), hready.2.2.1,
    hdone.1, hdone.2⟩

theorem mapsLookup_delete_self [DecidableEq K] (m : List (K × V)) (k : K) :
    mapsLookup (mapsDelete m k) k = none := by
  induction m with
  | nil => rfl
  | cons p rest ih =>
    obtain ⟨k', v'⟩ := p
    by_cases hk : k' = k
    · simp [mapsDelete, hk, ih]
    · simp [mapsDelete, mapsLookup, hk, ih]

theorem mapsLookup_delete_ne [DecidableEq K] (m : List (K × V)) (k k2 : K)
    (hne : k2 ≠ k) : mapsLookup (mapsDelete m k) k2 = mapsLookup m k2 := by
  induction m with
  | nil => rfl
  | cons p rest ih =>
    obtain ⟨k', v'⟩ := p
    by_cases hk : k' = k
    · subst hk
      simp [mapsDelete, mapsLookup, Ne.symm hne, ih]
    · simp [mapsDelete, mapsLookup, hk, ih]

theorem mapsLookup_insert_self [DecidableEq K] (m : List (K × V)) (k : K)
    (v : V) : mapsLookup (mapsInsert m k v) k = some v := by
  induction m with
  | nil => simp [mapsInsert, mapsLookup]
  | cons p rest ih =>
    obtain ⟨k', v'⟩ := p
    by_cases hk : k' = k
    · simp [mapsInsert, mapsLookup, hk]
    · simp [mapsInsert, mapsLookup, hk, ih]

/-- C9: mapping-collection `Remove` on an absent key returns the "this map
has not key" error and leaves the map unchanged; on a present key it
deletes that key's binding (other keys untouched) and returns no error. -/
theorem map_remove_spec [DecidableEq K] (m : List (K × V)) (key : K) :
    (mapsLookup m key = none →
      BaseCollectionMap.Remove m key = (.error .mapHasNotKey, m)) ∧
    ((mapsLookup m key).isSome = true →
      (BaseCollectionMap.Remove m key).1 = .ok () ∧
      mapsLookup (BaseCollectionMap.Remove m key).2 key = none ∧
      ∀ k2, k2 ≠ key →
        mapsLookup (BaseCollectionMap.Remove m key).2 k2
          = mapsLookup m k2) := by
  constructor
  · intro habs
    unfold BaseCollectionMap.Remove
    rw [if_neg (by simp [habs])]
  · intro hpres
    unfold BaseCollectionMap.Remove
    rw [if_pos hpres]
    exact ⟨rfl, mapsLookup_delete_self m key,
      fun k2 hk2 => mapsLookup_delete_ne m key k2 hk2⟩

/-- Witness for C9 at the concrete map `{1 ↦ 10, 2 ↦ 20}`: removing the
absent key 3 errors and leaves the map intact; removing the present key 1
succeeds, key 1 is gone and key 2 still maps to 20. -/
theorem map_remove_spec_witness :
    BaseCollectionMap.Remove [(1, 10), (2, 20)] (3 : Nat)
      = (.error .mapHasNotKey, [(1, 10), (2, 20)]) ∧
    (BaseCollectionMap.Remove [(1, 10), (2, 20)] (1 : Nat)).1 = .ok () ∧
    mapsLookup (BaseCollectionMap.Remove [(1, 10), (2, 20)] (1 : Nat)).2 1
      = none ∧
    mapsLookup (BaseCollectionMap.Remove [(1, 10), (2, 20)] (1 : Nat)).2 2
      = some 20 := by
  have habs := (map_remove_spec [(1, 10), (2, 20)] (3 : Nat)).1 (by decide)
  have hpres := (map_remove_spec [(1, 10), (2, 20)] (1 : Nat)).2 (by decide)
  exact ⟨habs, hpres.1, hpres.2.1,
    (hpres.2.2 2 (by decide)).trans (by decide)⟩

/-- C10: `NewCollectionMap` stores the caller's map without a defensive
copy — the constructed collection and the caller share the same cell
(`Items()` returns that same reference), a `Put(k, v)` on the collection
is observable as `m[k] == v` through the caller's original reference, and
a write through the caller's reference is observable through the
collection's `Get`. -/
theorem map_shares_storage [DecidableEq K] (h : Heap (List (K × V)))
    (src : Nat) (key : K) (item : V) (m : List (K × V))
    (hsrc : src < h.cells.length) :
    (NewCollectionMap h src).1 = h ∧
    (NewCollectionMap h src).2 = src ∧
    BaseCollectionMap.ItemsRef (NewCollectionMap h src).2 = src ∧
    mapsLookup
        ((BaseCollectionMap.Put (NewCollectionMap h src).1
          (NewCollectionMap h src).2 key item).read src) key
      = some item ∧
    BaseCollectionMap.GetM (h.write src m) (NewCollectionMap h src).2 key
      = mapsLookup m key := by
  refine ⟨rfl, rfl, rfl, ?_, ?_⟩
  · show mapsLookup
      ((h.write src (mapsInsert (h.read src) key item)).read src) key
      = some item
    rw [Heap.read_write_self _ _ _ hsrc]
    exact mapsLookup_insert_self (h.read src) key item
  · show mapsLookup ((h.write src m).read src) key = mapsLookup m key
    rw [Heap.read_write_self _ _ _ hsrc]

/-- Witness for C10: a one-cell heap holding the caller's map `{1 ↦ 10}`;
after the collection's `Put 2 20`, the caller's reference sees `2 ↦ 20`,
and after the caller overwrites the map with `{5 ↦ 50}`, the collection's
`Get 5` sees `50`. -/
theorem map_shares_storage_witness :
    (NewCollectionMap (Heap.mk [[((1 : Nat), (10 : Nat))]]) 0).2 = 0 ∧
    mapsLookup
        ((BaseCollectionMap.Put
          (NewCollectionMap (Heap.mk [[((1 : Nat), (10 : Nat))]]) 0).1
          (NewCollectionMap (Heap.mk [[((1 : Nat), (10 : Nat))]]) 0).2
          2 20).read 0) 2
      = some 20 ∧
    BaseCollectionMap.GetM
        ((Heap.mk [[((1 : Nat), (10 : Nat))]]).write 0 [(5, 50)])
        (NewCollectionMap (Heap.mk [[((1 : Nat), (10 : Nat))]]) 0).2 5
      = some 50 := by
  have hspec := map_shares_storage (Heap.mk [[((1 : Nat), (10 : Nat))]])
    0 2 20 [(5, 50)] (by decide)
  have hspec5 := map_shares_storage (Heap.mk [[((1 : Nat), (10 : Nat))]])
    0 5 50 [(5, 50)] (by decide)
  exact ⟨hspec.2.1, hspec.2.2.2.1, hspec5.2.2.2.2.trans (by decide)⟩
